import Mathlib

/-!
# Verification of the Othello/Reversi rules engine (`src/script.js`)

Shallow embedding of the game engine in `script.js`:

* cells are the three-valued enum `EMPTY / BLACK / WHITE` (`Cell`);
* `board` is an 8×8 grid (`Board := Fin 8 → Fin 8 → Cell`);
* JavaScript array accesses `board[r][c]` with arbitrary integer indices are
  modelled by `cellAt` (an out-of-range access yields `undefined`, modelled
  as `none`; indexing into `board[r]` when `r` itself is out of range throws
  a `TypeError`, modelled by returning `Except.error ()` from the function
  performing that access);
* the `DIRECTIONS.forEach` walk in `getFlippablePieces` is modelled by the
  structurally recursive `walkDir`; starting from a cell of the board and
  moving by a nonzero unit direction, the JavaScript `while` loop runs at
  most 7 successful iterations before its bound check fails, so fuel `8`
  makes `walkDir` exhibit exactly the loop's behaviour;
* `handleMove` (the engine's `applyMove`) returns the updated state together
  with the game status decided by `checkGameStatus`; the `setTimeout` based
  turn skip of a pass is modelled by its final effect (`currentPlayer`
  returns to the player that just moved).
-/

deriving instance DecidableEq for Except

/-- The three cell values of `script.js` (`EMPTY = 0`, `BLACK = 1`, `WHITE = 2`). -/
inductive Cell where
  | empty : Cell
  | black : Cell
  | white : Cell
deriving DecidableEq, Repr

/-- A player is `BLACK` or `WHITE`. -/
inductive Player where
  | black : Player
  | white : Player
deriving DecidableEq, Repr

/-- The disc colour a player places (`BLACK`/`WHITE` as a `Cell`). -/
def Player.cell : Player → Cell
  | .black => .black
  | .white => .white

/-- `player === BLACK ? WHITE : BLACK` — the opponent. -/
def Player.opp : Player → Player
  | .black => .white
  | .white => .black

/-- The 8×8 board (`BOARD_SIZE = 8`). -/
abbrev Board := Fin 8 → Fin 8 → Cell

/-- Pointwise decision procedure for board equality (the generic
pi-type instance found by instance search reduces poorly in the kernel). -/
instance : DecidableEq Board := fun f g =>
  decidable_of_iff (∀ i j : Fin 8, f i j = g i j)
    ⟨fun h => funext fun i => funext fun j => h i j,
      fun h i j => congrFun (congrFun h i) j⟩

/-- The engine's mutable globals `board` and `currentPlayer`. -/
structure GameState where
  board : Board
  currentPlayer : Player
deriving DecidableEq, Repr

/-- Reading `board[r][c]` when `r` is known to be in range: yields the cell
when `c` is also in range and `undefined` (`none`) otherwise.  (A read with
`r` out of range throws instead; callers model that case separately.) -/
def cellAt (b : Board) (r c : Int) : Option Cell :=
  if h : 0 ≤ r ∧ r < 8 ∧ 0 ≤ c ∧ c < 8 then
    some (b ⟨r.toNat, by omega⟩ ⟨c.toNat, by omega⟩)
  else
    none

/-- The assignment `board[r][c] = v` (only executed with in-range indices). -/
def setCell (b : Board) (r c : Int) (v : Cell) : Board :=
  fun i j => if (i.val : Int) = r ∧ (j.val : Int) = c then v else b i j

/-- `DIRECTIONS`: the 8 direction deltas, in source order
up, down, left, right, up-left, up-right, down-left, down-right. -/
def DIRECTIONS : List (Int × Int) :=
  [(-1, 0), (1, 0), (0, -1), (0, 1), (-1, -1), (-1, 1), (1, -1), (1, 1)]

/-- The `while` loop inside `getFlippablePieces` for one direction `(dr, dc)`:
walks from `(nr, nc)` accumulating opponent cells in `line`; an empty cell or
the board edge discards the line, a `player` cell returns it.  `fuel = 8`
suffices for every call made by `getFlippablePieces` (the walk starts one
step away from an in-range cell and moves by a nonzero unit delta, so the
range check fails after at most 7 successful iterations). -/
def walkDir (b : Board) (player : Player) (dr dc : Int) :
    Nat → Int → Int → List (Int × Int) → List (Int × Int)
  | 0, _, _, _ => []
  | fuel + 1, nr, nc, line =>
    match cellAt b nr nc with
    | none => []
    | some cur =>
      if cur = Cell.empty then []
      else if cur = player.opp.cell then
        walkDir b player dr dc fuel (nr + dr) (nc + dc) (line ++ [(nr, nc)])
      else if cur = player.cell then line
      else walkDir b player dr dc fuel (nr + dr) (nc + dc) line

/-- `getFlippablePieces(r, c, player)`.  The guard mirrors the source
condition `board[r][c] !== EMPTY || r < 0 || r >= 8 || c < 0 || c >= 8`:
JavaScript evaluates `board[r][c]` first, so when `r` is out of range the
access `(undefined)[c]` throws a `TypeError` (`Except.error ()`) before the
range checks run; when `r` is in range and `c` is not, `board[r][c]` is
`undefined !== EMPTY` and the empty list is returned. -/
def getFlippablePieces (b : Board) (r c : Int) (player : Player) :
    Except Unit (List (Int × Int)) :=
  if 0 ≤ r ∧ r < 8 then
    if cellAt b r c ≠ some Cell.empty ∨ r < 0 ∨ 8 ≤ r ∨ c < 0 ∨ 8 ≤ c then
      Except.ok []
    else
      Except.ok (DIRECTIONS.flatMap fun d =>
        walkDir b player d.1 d.2 8 (r + d.1) (c + d.2) [])
  else
    Except.error ()

/-- `getValidMoves(player)`: scans all cells in row-major order and keeps the
ones whose flip list is non-empty.  All calls are in range, so
`getFlippablePieces` never throws here (the `error` branch is unreachable). -/
def getValidMoves (b : Board) (player : Player) : List (Int × Int) :=
  (List.range 8).flatMap fun r =>
    (List.range 8).flatMap fun c =>
      match getFlippablePieces b (r : Int) (c : Int) player with
      | .ok l => if l.length > 0 then [((r : Int), (c : Int))] else []
      | .error _ => []

/-- The cells of the board in the row-major order of the counting loops of
`updateScore`/`endGame`. -/
def boardCells (b : Board) : List Cell :=
  (List.finRange 8).flatMap fun i => (List.finRange 8).map fun j => b i j

/-- `blackCount` of `updateScore`/`endGame`. -/
def blackCount (b : Board) : Nat :=
  (boardCells b).countP fun x => decide (x = Cell.black)

/-- `whiteCount` of `updateScore`/`endGame`. -/
def whiteCount (b : Board) : Nat :=
  (boardCells b).countP fun x => decide (x = Cell.white)

/-- The game status decided by `checkGameStatus` (pass records the skipped
player). -/
inductive GameStatus where
  | inProgress : GameStatus
  | pass : Player → GameStatus
  | terminal : GameStatus
deriving DecidableEq, Repr

/-- `checkGameStatus`, for current player `cp`: if `cp` has no move and the
other player has none either the game ends (`terminal`, `currentPlayer`
unchanged); if only `cp` has none, `cp` is skipped and — after the
`setTimeout` delay — `currentPlayer` becomes the other player (`pass cp`);
otherwise play continues with `cp`.  Returns the status and the final value
of `currentPlayer`. -/
def checkGameStatus (b : Board) (cp : Player) : GameStatus × Player :=
  if (getValidMoves b cp).length = 0 then
    if (getValidMoves b cp.opp).length = 0 then (GameStatus.terminal, cp)
    else (GameStatus.pass cp, cp.opp)
  else (GameStatus.inProgress, cp)

/-- `switchTurn`: flips `currentPlayer` and re-renders, which runs
`checkGameStatus` on the new current player. -/
def switchTurn (s : GameState) : GameState × GameStatus :=
  let next := s.currentPlayer.opp
  let r := checkGameStatus s.board next
  (⟨s.board, r.2⟩, r.1)

/-- `handleMove(r, c)` — the engine's `applyMove`: recomputes the flip list;
if non-empty, places the disc, flips the listed cells and switches the turn
(returning the resulting status); otherwise the call is a no-op (`none`
status, state unchanged).  A thrown `TypeError` from `getFlippablePieces`
propagates before any mutation. -/
def handleMove (s : GameState) (r c : Int) :
    Except Unit (GameState × Option GameStatus) :=
  match getFlippablePieces s.board r c s.currentPlayer with
  | .error e => .error e
  | .ok flippable =>
    if flippable.length > 0 then
      let b1 := setCell s.board r c s.currentPlayer.cell
      let b2 := flippable.foldl
        (fun bd q => setCell bd q.1 q.2 s.currentPlayer.cell) b1
      let r := switchTurn ⟨b2, s.currentPlayer⟩
      .ok (r.1, some r.2)
    else
      .ok (s, none)

/-- The outcome computed by `endGame`. -/
inductive GameResult where
  | blackWins : GameResult
  | whiteWins : GameResult
  | draw : GameResult
deriving DecidableEq, Repr

/-- `endGame`: recounts the discs and declares the winner (or a draw). -/
def endGame (b : Board) : GameResult × Nat × Nat :=
  let bc := blackCount b
  let wc := whiteCount b
  (if bc > wc then GameResult.blackWins
   else if wc > bc then GameResult.whiteWins
   else GameResult.draw, bc, wc)

/-- `initializeGame`: all cells `EMPTY`, then `WHITE` at (3,3) and (4,4),
`BLACK` at (3,4) and (4,3), and `currentPlayer = BLACK`. -/
def initializeGame : GameState where
  board := fun i j =>
    if (i = 3 ∧ j = 3) ∨ (i = 4 ∧ j = 4) then Cell.white
    else if (i = 3 ∧ j = 4) ∨ (i = 4 ∧ j = 3) then Cell.black
    else Cell.empty
  currentPlayer := Player.black

/-! ## Specification-side description of one direction's contribution

`specRun` is written from the specification's words (claim about
`flippablePieces`): walking outward from `(r, c)` in direction `(dr, dc)`,
take the maximal contiguous run of opponent-coloured cells (listed
nearest-to-farthest); the run counts only when the cell terminating it is a
`player`-coloured cell — a run ending at an `EMPTY` cell or at the board
edge contributes nothing.  The 8 steps of the ray cover every cell an 8×8
board can hold in one direction. -/

/-- The positions walking outward from `(r, c)`: `(r + k·dr, c + k·dc)` for
`k = 1, …, 8`. -/
def rayFrom (r c dr dc : Int) : List (Int × Int) :=
  (List.range 8).map fun (k : Nat) =>
    (r + ((k : Int) + 1) * dr, c + ((k : Int) + 1) * dc)

/-- Spec-side contribution of direction `(dr, dc)` to the flip list at
`(r, c)`: the maximal contiguous opponent run outward from `(r, c)`,
kept only when terminated by a `player`-coloured cell. -/
def specRun (b : Board) (player : Player) (r c dr dc : Int) : List (Int × Int) :=
  let ray := rayFrom r c dr dc
  let run := ray.takeWhile fun q => decide (cellAt b q.1 q.2 = some player.opp.cell)
  match ray[run.length]? with
  | some q => if cellAt b q.1 q.2 = some player.cell then run else []
  | none => []

/-! ## Proof helpers -/

/-- The first `n` positions of the walk starting at `(nr, nc)` with step
`(dr, dc)`. -/
def rayN (dr dc : Int) : Nat → Int → Int → List (Int × Int)
  | 0, _, _ => []
  | n + 1, nr, nc => (nr, nc) :: rayN dr dc n (nr + dr) (nc + dc)

/-- Accumulator-free companion of `walkDir`: `some run` when the walk from
`(nr, nc)` reaches a `player` cell within `n` steps with `run` the opponent
cells passed on the way, `none` otherwise. -/
def runFrom (b : Board) (player : Player) (dr dc : Int) :
    Nat → Int → Int → Option (List (Int × Int))
  | 0, _, _ => none
  | n + 1, nr, nc =>
    match cellAt b nr nc with
    | none => none
    | some cur =>
      if cur = Cell.empty then none
      else if cur = player.opp.cell then
        (runFrom b player dr dc n (nr + dr) (nc + dc)).map (((nr, nc)) :: ·)
      else if cur = player.cell then some []
      else runFrom b player dr dc n (nr + dr) (nc + dc)

/-- All 64 board positions. -/
def allPositions : List (Fin 8 × Fin 8) :=
  (List.finRange 8).flatMap fun i => (List.finRange 8).map fun j => (i, j)

/-- Count of `EMPTY` cells (used to track the disc total). -/
def emptyCount (b : Board) : Nat :=
  (boardCells b).countP fun x => decide (x = Cell.empty)

/-! ## Concrete positions used as witnesses -/

/-- The board with no discs at all: neither player has a legal move. -/
def emptyBoard : Board := fun _ _ => Cell.empty

/-- A position in which BLACK, to move, can play (4,7); afterwards WHITE has
no legal move while BLACK still has one, so WHITE is passed. -/
def passBefore : Board := fun i j =>
  if (i = 0 ∧ j = 0) ∨ (i = 4 ∧ j = 4) ∨ (i = 4 ∧ j = 6) then Cell.white
  else if i = 0 ∨ j = 0 ∨ i = j ∨ (i = 4 ∧ j = 5) then Cell.black
  else Cell.empty

/-- The position reached from `passBefore` after BLACK plays (4,7),
flipping (4,6). -/
def passAfter : Board := fun i j =>
  if (i = 0 ∧ j = 0) ∨ (i = 4 ∧ j = 4) then Cell.white
  else if i = 0 ∨ j = 0 ∨ i = j ∨ (i = 4 ∧ 5 ≤ j) then Cell.black
  else Cell.empty

/-- The board after BLACK's opening move (2,3) from the initial position:
(2,3) is placed and (3,3) flips from WHITE to BLACK. -/
def afterFirstMove : Board := fun i j =>
  if (i = 2 ∧ j = 3) ∨ (i = 3 ∧ j = 3) ∨ (i = 3 ∧ j = 4) ∨ (i = 4 ∧ j = 3) then Cell.black
  else if i = 4 ∧ j = 4 then Cell.white
  else Cell.empty

/-! ## Basic facts about players and cells -/

theorem Player.cell_ne_empty (p : Player) : p.cell ≠ Cell.empty := by
  cases p <;> simp [Player.cell]

theorem Player.opp_cell_ne_cell (p : Player) : p.opp.cell ≠ p.cell := by
  cases p <;> simp [Player.cell, Player.opp]

theorem Player.cell_ne_opp_cell (p : Player) : p.cell ≠ p.opp.cell := by
  cases p <;> simp [Player.cell, Player.opp]

theorem Player.opp_opp (p : Player) : p.opp.opp = p := by
  cases p <;> rfl

theorem cellAt_eq_some (b : Board) (r c : Int) (v : Cell)
    (h : cellAt b r c = some v) :
    0 ≤ r ∧ r < 8 ∧ 0 ≤ c ∧ c < 8 := by
  unfold cellAt at h
  split at h
  · omega
  · exact absurd h (by simp)

theorem cellAt_fin (b : Board) (i j : Fin 8) :
    cellAt b (i.val : Int) (j.val : Int) = some (b i j) := by
  unfold cellAt
  have hi := i.isLt
  have hj := j.isLt
  rw [dif_pos (by omega)]
  congr 1

theorem cellAt_val (b : Board) (r c : Int) (v : Cell) (h : cellAt b r c = some v) :
    b ⟨r.toNat, by have := cellAt_eq_some b r c v h; omega⟩
      ⟨c.toNat, by have := cellAt_eq_some b r c v h; omega⟩ = v := by
  have hb := cellAt_eq_some b r c v h
  unfold cellAt at h
  rw [dif_pos (by omega)] at h
  exact (Option.some.injEq _ _).mp h.symm |>.symm

/-! ## The direction walk: `walkDir` = `specRun` -/

/-- The shared core of `specRun`: the maximal opponent run of `ray`, kept
when the entry of `ray` terminating it is a `player` cell. -/
def runSpec (b : Board) (player : Player) (ray : List (Int × Int)) :
    Option (List (Int × Int)) :=
  let run := ray.takeWhile fun q => decide (cellAt b q.1 q.2 = some player.opp.cell)
  match ray[run.length]? with
  | some q => if cellAt b q.1 q.2 = some player.cell then some run else none
  | none => none

theorem specRun_eq_runSpec (b : Board) (p : Player) (r c dr dc : Int) :
    specRun b p r c dr dc = (runSpec b p (rayFrom r c dr dc)).elim [] id := by
  unfold specRun runSpec
  cases h : (rayFrom r c dr dc)[((rayFrom r c dr dc).takeWhile
      fun q => decide (cellAt b q.1 q.2 = some p.opp.cell)).length]? with
  | none => simp [h]
  | some q =>
    simp only [h]
    split <;> simp

theorem runSpec_nil (b : Board) (p : Player) : runSpec b p [] = none := by
  simp [runSpec]

theorem runSpec_cons_none (b : Board) (p : Player) (q : Int × Int)
    (ray : List (Int × Int)) (hc : cellAt b q.1 q.2 = none) :
    runSpec b p (q :: ray) = none := by
  unfold runSpec
  rw [List.takeWhile_cons]
  simp [hc]

theorem runSpec_cons_empty (b : Board) (p : Player) (q : Int × Int)
    (ray : List (Int × Int)) (hc : cellAt b q.1 q.2 = some Cell.empty) :
    runSpec b p (q :: ray) = none := by
  unfold runSpec
  rw [List.takeWhile_cons]
  simp [hc, (Player.cell_ne_empty p.opp).symm, (Player.cell_ne_empty p).symm]

theorem runSpec_cons_player (b : Board) (p : Player) (q : Int × Int)
    (ray : List (Int × Int)) (hc : cellAt b q.1 q.2 = some p.cell) :
    runSpec b p (q :: ray) = some [] := by
  unfold runSpec
  rw [List.takeWhile_cons]
  simp [hc, Player.cell_ne_opp_cell p]

theorem runSpec_cons_opp (b : Board) (p : Player) (q : Int × Int)
    (ray : List (Int × Int)) (hc : cellAt b q.1 q.2 = some p.opp.cell) :
    runSpec b p (q :: ray) = (runSpec b p ray).map (q :: ·) := by
  have htw : List.takeWhile (fun x => decide (cellAt b x.1 x.2 = some p.opp.cell)) (q :: ray)
      = q :: List.takeWhile (fun x => decide (cellAt b x.1 x.2 = some p.opp.cell)) ray := by
    rw [List.takeWhile_cons]
    simp [hc]
  unfold runSpec
  rw [htw]
  simp only [List.length_cons, List.getElem?_cons_succ]
  cases hq : ray[(ray.takeWhile fun x => decide (cellAt b x.1 x.2 = some p.opp.cell)).length]? with
  | none => simp [hq]
  | some q2 =>
    simp only [hq]
    split <;> simp


theorem walkDir_succ_none (b : Board) (p : Player) (dr dc : Int) (n : Nat)
    (nr nc : Int) (line : List (Int × Int)) (hc : cellAt b nr nc = none) :
    walkDir b p dr dc (n + 1) nr nc line = [] := by
  rw [walkDir]
  simp [hc]

theorem walkDir_succ_empty (b : Board) (p : Player) (dr dc : Int) (n : Nat)
    (nr nc : Int) (line : List (Int × Int))
    (hc : cellAt b nr nc = some Cell.empty) :
    walkDir b p dr dc (n + 1) nr nc line = [] := by
  rw [walkDir]
  simp [hc]

theorem walkDir_succ_opp (b : Board) (p : Player) (dr dc : Int) (n : Nat)
    (nr nc : Int) (line : List (Int × Int))
    (hc : cellAt b nr nc = some p.opp.cell) :
    walkDir b p dr dc (n + 1) nr nc line =
      walkDir b p dr dc n (nr + dr) (nc + dc) (line ++ [(nr, nc)]) := by
  rw [walkDir]
  simp [hc, Player.cell_ne_empty p.opp]

theorem walkDir_succ_player (b : Board) (p : Player) (dr dc : Int) (n : Nat)
    (nr nc : Int) (line : List (Int × Int))
    (hc : cellAt b nr nc = some p.cell) :
    walkDir b p dr dc (n + 1) nr nc line = line := by
  rw [walkDir]
  simp [hc, Player.cell_ne_empty p, Player.cell_ne_opp_cell p]

theorem runFrom_succ_none (b : Board) (p : Player) (dr dc : Int) (n : Nat)
    (nr nc : Int) (hc : cellAt b nr nc = none) :
    runFrom b p dr dc (n + 1) nr nc = none := by
  rw [runFrom]
  simp [hc]

theorem runFrom_succ_empty (b : Board) (p : Player) (dr dc : Int) (n : Nat)
    (nr nc : Int) (hc : cellAt b nr nc = some Cell.empty) :
    runFrom b p dr dc (n + 1) nr nc = none := by
  rw [runFrom]
  simp [hc]

theorem runFrom_succ_opp (b : Board) (p : Player) (dr dc : Int) (n : Nat)
    (nr nc : Int) (hc : cellAt b nr nc = some p.opp.cell) :
    runFrom b p dr dc (n + 1) nr nc =
      (runFrom b p dr dc n (nr + dr) (nc + dc)).map (((nr, nc)) :: ·) := by
  rw [runFrom]
  simp [hc, Player.cell_ne_empty p.opp]

theorem runFrom_succ_player (b : Board) (p : Player) (dr dc : Int) (n : Nat)
    (nr nc : Int) (hc : cellAt b nr nc = some p.cell) :
    runFrom b p dr dc (n + 1) nr nc = some [] := by
  rw [runFrom]
  simp [hc, Player.cell_ne_empty p, Player.cell_ne_opp_cell p]

theorem runFrom_eq_runSpec (b : Board) (p : Player) (dr dc : Int) (n : Nat) :
    ∀ nr nc : Int, runFrom b p dr dc n nr nc = runSpec b p (rayN dr dc n nr nc) := by
  induction n with
  | zero => intro nr nc; simp [runFrom, rayN, runSpec_nil]
  | succ n ih =>
    intro nr nc
    rw [rayN]
    cases hc : cellAt b nr nc with
    | none =>
      rw [runFrom_succ_none b p dr dc n nr nc hc,
        runSpec_cons_none b p (nr, nc) _ hc]
    | some cur =>
      cases cur with
      | empty =>
        rw [runFrom_succ_empty b p dr dc n nr nc hc,
          runSpec_cons_empty b p (nr, nc) _ hc]
      | black =>
        cases p with
        | black =>
          have hp : cellAt b nr nc = some Player.black.cell := hc
          rw [runFrom_succ_player b Player.black dr dc n nr nc hp,
            runSpec_cons_player b Player.black (nr, nc) _ hp]
        | white =>
          have hp : cellAt b nr nc = some Player.white.opp.cell := hc
          rw [runFrom_succ_opp b Player.white dr dc n nr nc hp,
            runSpec_cons_opp b Player.white (nr, nc) _ hp, ih]
      | white =>
        cases p with
        | black =>
          have hp : cellAt b nr nc = some Player.black.opp.cell := hc
          rw [runFrom_succ_opp b Player.black dr dc n nr nc hp,
            runSpec_cons_opp b Player.black (nr, nc) _ hp, ih]
        | white =>
          have hp : cellAt b nr nc = some Player.white.cell := hc
          rw [runFrom_succ_player b Player.white dr dc n nr nc hp,
            runSpec_cons_player b Player.white (nr, nc) _ hp]

theorem walkDir_eq_runFrom (b : Board) (p : Player) (dr dc : Int) (n : Nat) :
    ∀ (nr nc : Int) (line : List (Int × Int)),
      walkDir b p dr dc n nr nc line =
        (runFrom b p dr dc n nr nc).elim [] (fun run => line ++ run) := by
  induction n with
  | zero => intro nr nc line; simp [walkDir, runFrom]
  | succ n ih =>
    intro nr nc line
    cases hc : cellAt b nr nc with
    | none =>
      rw [walkDir_succ_none b p dr dc n nr nc line hc,
        runFrom_succ_none b p dr dc n nr nc hc]
      simp
    | some cur =>
      cases cur with
      | empty =>
        rw [walkDir_succ_empty b p dr dc n nr nc line hc,
          runFrom_succ_empty b p dr dc n nr nc hc]
        simp
      | black =>
        cases p with
        | black =>
          have hp : cellAt b nr nc = some Player.black.cell := hc
          rw [walkDir_succ_player b Player.black dr dc n nr nc line hp,
            runFrom_succ_player b Player.black dr dc n nr nc hp]
          simp
        | white =>
          have hp : cellAt b nr nc = some Player.white.opp.cell := hc
          rw [walkDir_succ_opp b Player.white dr dc n nr nc line hp,
            runFrom_succ_opp b Player.white dr dc n nr nc hp, ih]
          cases runFrom b Player.white dr dc n (nr + dr) (nc + dc) with
          | none => simp
          | some run => simp
      | white =>
        cases p with
        | black =>
          have hp : cellAt b nr nc = some Player.black.opp.cell := hc
          rw [walkDir_succ_opp b Player.black dr dc n nr nc line hp,
            runFrom_succ_opp b Player.black dr dc n nr nc hp, ih]
          cases runFrom b Player.black dr dc n (nr + dr) (nc + dc) with
          | none => simp
          | some run => simp
        | white =>
          have hp : cellAt b nr nc = some Player.white.cell := hc
          rw [walkDir_succ_player b Player.white dr dc n nr nc line hp,
            runFrom_succ_player b Player.white dr dc n nr nc hp]
          simp

theorem rayN_eq_map (dr dc : Int) (n : Nat) :
    ∀ nr nc : Int, rayN dr dc n nr nc =
      (List.range n).map fun (k : Nat) =>
        (nr + (k : Int) * dr, nc + (k : Int) * dc) := by
  induction n with
  | zero => intro nr nc; simp [rayN]
  | succ n ih =>
    intro nr nc
    rw [rayN, List.range_succ_eq_map, ih]
    simp only [List.map_cons, List.map_map, Nat.cast_zero, zero_mul, add_zero]
    congr 1
    apply List.map_congr_left
    intro k hk
    simp only [Function.comp_apply, Nat.succ_eq_add_one, Prod.mk.injEq]
    constructor <;> push_cast <;> ring

theorem rayFrom_eq_rayN (r c dr dc : Int) :
    rayN dr dc 8 (r + dr) (c + dc) = rayFrom r c dr dc := by
  rw [rayN_eq_map]
  unfold rayFrom
  apply List.map_congr_left
  intro k hk
  simp only [Prod.mk.injEq]
  constructor <;> ring

/-- Per-direction bridge: the source loop computes exactly the spec-side
direction contribution. -/
theorem walkDir_eq_specRun (b : Board) (p : Player) (r c dr dc : Int) :
    walkDir b p dr dc 8 (r + dr) (c + dc) [] = specRun b p r c dr dc := by
  rw [walkDir_eq_runFrom, runFrom_eq_runSpec, rayFrom_eq_rayN,
    specRun_eq_runSpec]
  cases runSpec b p (rayFrom r c dr dc) with
  | none => rfl
  | some run => simp

/-! ## Unfolding `getFlippablePieces` -/

theorem getFlippablePieces_error (b : Board) (r c : Int) (p : Player)
    (hr : r < 0 ∨ 8 ≤ r) :
    getFlippablePieces b r c p = Except.error () := by
  unfold getFlippablePieces
  rw [if_neg (by omega)]

theorem getFlippablePieces_closed (b : Board) (r c : Int) (p : Player)
    (hr : 0 ≤ r ∧ r < 8) (hc : cellAt b r c ≠ some Cell.empty) :
    getFlippablePieces b r c p = Except.ok [] := by
  unfold getFlippablePieces
  rw [if_pos hr, if_pos (Or.inl hc)]

theorem getFlippablePieces_open (b : Board) (r c : Int) (p : Player)
    (he : cellAt b r c = some Cell.empty) :
    getFlippablePieces b r c p =
      Except.ok (DIRECTIONS.flatMap fun d =>
        walkDir b p d.1 d.2 8 (r + d.1) (c + d.2) []) := by
  have hb := cellAt_eq_some b r c Cell.empty he
  unfold getFlippablePieces
  rw [if_pos (by omega)]
  rw [if_neg ?hcond]
  case hcond =>
    push_neg
    refine ⟨by simp [he], by omega, by omega, by omega, by omega⟩

/-- The flip list of an open in-range cell, direction by direction, as the
spec describes it. -/
theorem flatMap_walkDir_eq_specRun (b : Board) (p : Player) (r c : Int) :
    (DIRECTIONS.flatMap fun d => walkDir b p d.1 d.2 8 (r + d.1) (c + d.2) []) =
      specRun b p r c (-1) 0 ++ specRun b p r c 1 0 ++ specRun b p r c 0 (-1) ++
      specRun b p r c 0 1 ++ specRun b p r c (-1) (-1) ++ specRun b p r c (-1) 1 ++
      specRun b p r c 1 (-1) ++ specRun b p r c 1 1 := by
  simp only [DIRECTIONS, List.flatMap_cons, List.flatMap_nil, List.append_nil]
  rw [walkDir_eq_specRun, walkDir_eq_specRun, walkDir_eq_specRun,
    walkDir_eq_specRun, walkDir_eq_specRun, walkDir_eq_specRun,
    walkDir_eq_specRun, walkDir_eq_specRun]
  simp [List.append_assoc]

/-- **C1.** For every board, every player, and every in-range `EMPTY` cell
`(r, c)`, `flippablePieces(r, c, player)` equals the concatenation, over the
8 directions taken in the fixed order up, down, left, right, up-left,
up-right, down-left, down-right, of the maximal contiguous run of
opponent-coloured cells walking outward from `(r, c)` in that direction,
listed nearest-to-farthest, where a run is included only if it is terminated
by a player-coloured cell (runs ending at an `EMPTY` cell or at the board
edge contribute nothing — `specRun`). -/
theorem flippablePieces_eq_directional_runs (b : Board) (p : Player)
    (r c : Int) (_hr : 0 ≤ r ∧ r < 8) (_hc : 0 ≤ c ∧ c < 8)
    (he : cellAt b r c = some Cell.empty) :
    getFlippablePieces b r c p =
      Except.ok (specRun b p r c (-1) 0 ++ specRun b p r c 1 0 ++
        specRun b p r c 0 (-1) ++ specRun b p r c 0 1 ++
        specRun b p r c (-1) (-1) ++ specRun b p r c (-1) 1 ++
        specRun b p r c 1 (-1) ++ specRun b p r c 1 1) := by
  rw [getFlippablePieces_open b r c p he, flatMap_walkDir_eq_specRun]

/-- Witness for C1: from the initial position, BLACK at (2,3) flips exactly
the run [(3,3)] found in the downward direction. -/
theorem flippablePieces_eq_directional_runs_witness :
    (0 ≤ (2 : Int) ∧ (2 : Int) < 8) ∧ (0 ≤ (3 : Int) ∧ (3 : Int) < 8) ∧
      cellAt initializeGame.board 2 3 = some Cell.empty ∧
      getFlippablePieces initializeGame.board 2 3 Player.black =
        Except.ok (specRun initializeGame.board Player.black 2 3 (-1) 0 ++
          specRun initializeGame.board Player.black 2 3 1 0 ++
          specRun initializeGame.board Player.black 2 3 0 (-1) ++
          specRun initializeGame.board Player.black 2 3 0 1 ++
          specRun initializeGame.board Player.black 2 3 (-1) (-1) ++
          specRun initializeGame.board Player.black 2 3 (-1) 1 ++
          specRun initializeGame.board Player.black 2 3 1 (-1) ++
          specRun initializeGame.board Player.black 2 3 1 1) :=
  ⟨by decide, by decide, by decide,
    flippablePieces_eq_directional_runs initializeGame.board Player.black 2 3
      (by decide) (by decide) (by decide)⟩

/-! ## C4: out-of-range row indices crash `getFlippablePieces` -/

/-- **C4 (refuted — code bug).**  The claim says out-of-range coordinates
are handled like any other illegal move with no crash.  The source checks
`board[r][c] !== EMPTY` *before* the range checks, so for a row index
outside `[0,8)` the JavaScript access `board[r]` yields `undefined` and
`undefined[c]` throws a `TypeError` before the (dead) range checks run:
`getFlippablePieces(8, 0, …)` and `getFlippablePieces(-1, 0, …)` crash, and
so does `applyMove` on such a row.  (An out-of-range *column* with an
in-range row does behave as claimed, returning the empty list.)  This
contradicts the function's own documentation ("returns an empty list when
the move is invalid; invalid when occupied or off the board"), so the code,
not the claim, is wrong. -/
theorem flippablePieces_out_of_range_row_throws :
    getFlippablePieces initializeGame.board 8 0 Player.black = Except.error () ∧
    getFlippablePieces initializeGame.board (-1) 0 Player.black = Except.error () ∧
    handleMove initializeGame 8 0 = Except.error () ∧
    getFlippablePieces initializeGame.board 0 8 Player.black = Except.ok [] ∧
    handleMove initializeGame 0 8 = Except.ok (initializeGame, none) := by
  refine ⟨rfl, rfl, rfl, ?_, ?_⟩ <;> decide

/-! ## C6: the initial state -/

/-- **C6.** `newGame()`/reset produces exactly: WHITE at (3,3) and (4,4),
BLACK at (3,4) and (4,3), all 60 other cells EMPTY, `currentPlayer = BLACK`;
and from this state `validMoves(BLACK)` is exactly
{(2,3), (3,2), (4,5), (5,4)} (listed in the scan's row-major order). -/
theorem initializeGame_spec :
    initializeGame.board 3 3 = Cell.white ∧
    initializeGame.board 4 4 = Cell.white ∧
    initializeGame.board 3 4 = Cell.black ∧
    initializeGame.board 4 3 = Cell.black ∧
    (∀ i j : Fin 8,
      ¬((i = 3 ∧ j = 3) ∨ (i = 4 ∧ j = 4) ∨ (i = 3 ∧ j = 4) ∨ (i = 4 ∧ j = 3)) →
      initializeGame.board i j = Cell.empty) ∧
    initializeGame.currentPlayer = Player.black ∧
    getValidMoves initializeGame.board Player.black =
      [(2, 3), (3, 2), (4, 5), (5, 4)] := by
  refine ⟨rfl, rfl, rfl, rfl, by decide, rfl, by decide⟩

/-! ## C8: winner determination -/

/-- **C8.** At the terminal state `endGame` declares the winner as a pure
function of the final score: BLACK wins iff `blackCount > whiteCount`,
WHITE wins iff `whiteCount > blackCount`, and the result is a DRAW iff the
counts are equal; the reported score is exactly `(blackCount, whiteCount)`,
the counts of BLACK and WHITE cells on the board. -/
theorem endGame_winner_spec (b : Board) :
    ((endGame b).1 = GameResult.blackWins ↔ blackCount b > whiteCount b) ∧
    ((endGame b).1 = GameResult.whiteWins ↔ whiteCount b > blackCount b) ∧
    ((endGame b).1 = GameResult.draw ↔ blackCount b = whiteCount b) ∧
    (endGame b).2 = (blackCount b, whiteCount b) := by
  simp only [endGame]
  split_ifs with h1 h2
  · refine ⟨by simp [h1], by simp; omega, by simp; omega, by simp⟩
  · refine ⟨by simp; omega, by simp [h2], by simp; omega, by simp⟩
  · refine ⟨by simp; omega, by simp; omega, by simp; omega, by simp⟩

/-! ## Unfolding `handleMove` -/

/-- The board after a successful move: the placed disc, then the flips. -/
def boardAfter (s : GameState) (r c : Int) (l : List (Int × Int)) : Board :=
  l.foldl (fun bd q => setCell bd q.1 q.2 s.currentPlayer.cell)
    (setCell s.board r c s.currentPlayer.cell)

theorem handleMove_throw (s : GameState) (r c : Int)
    (hflip : getFlippablePieces s.board r c s.currentPlayer = Except.error ()) :
    handleMove s r c = Except.error () := by
  unfold handleMove
  rw [hflip]

theorem handleMove_reject (s : GameState) (r c : Int)
    (hflip : getFlippablePieces s.board r c s.currentPlayer = Except.ok []) :
    handleMove s r c = Except.ok (s, none) := by
  unfold handleMove
  rw [hflip]
  simp

theorem handleMove_success (s : GameState) (r c : Int) (l : List (Int × Int))
    (hflip : getFlippablePieces s.board r c s.currentPlayer = Except.ok l)
    (hl : l ≠ []) :
    handleMove s r c = Except.ok
      (⟨boardAfter s r c l,
          (checkGameStatus (boardAfter s r c l) s.currentPlayer.opp).2⟩,
        some (checkGameStatus (boardAfter s r c l) s.currentPlayer.opp).1) := by
  unfold handleMove
  rw [hflip]
  simp only [List.length_pos.mpr hl, if_pos, gt_iff_lt, switchTurn, boardAfter]

/-! ## C2: legality of `applyMove` -/

/-- **C2.** For every state and in-range coordinates, `applyMove(r,c)`
succeeds iff `flippablePieces(r, c, currentPlayer)` is non-empty; when that
list is empty — in particular whenever the target cell is non-`EMPTY`, for
either player — the call returns failure and leaves the board and
`currentPlayer` completely unchanged. -/
theorem applyMove_succeeds_iff_flippable (s : GameState) (r c : Int)
    (hr : 0 ≤ r ∧ r < 8) (_hc : 0 ≤ c ∧ c < 8) :
    ∃ l, getFlippablePieces s.board r c s.currentPlayer = Except.ok l ∧
      ((∃ s2 st, handleMove s r c = Except.ok (s2, some st)) ↔ l ≠ []) ∧
      (l = [] → handleMove s r c = Except.ok (s, none)) ∧
      (cellAt s.board r c ≠ some Cell.empty →
        handleMove s r c = Except.ok (s, none)) := by
  by_cases he : cellAt s.board r c = some Cell.empty
  · refine ⟨_, getFlippablePieces_open s.board r c s.currentPlayer he, ?_, ?_, ?_⟩
    · constructor
      · rintro ⟨s2, st, hm⟩
        intro hnil
        rw [handleMove_reject s r c
          (by rw [getFlippablePieces_open s.board r c s.currentPlayer he, hnil])] at hm
        simp at hm
      · intro hnil
        exact ⟨_, _, handleMove_success s r c _
          (getFlippablePieces_open s.board r c s.currentPlayer he) hnil⟩
    · intro hnil
      exact handleMove_reject s r c
        (by rw [getFlippablePieces_open s.board r c s.currentPlayer he, hnil])
    · intro hne
      exact absurd he hne
  · refine ⟨[], getFlippablePieces_closed s.board r c s.currentPlayer hr he, ?_, ?_, ?_⟩
    · constructor
      · rintro ⟨s2, st, hm⟩
        rw [handleMove_reject s r c
          (getFlippablePieces_closed s.board r c s.currentPlayer hr he)] at hm
        simp at hm
      · intro hnil
        exact absurd rfl hnil
    · intro _
      exact handleMove_reject s r c
        (getFlippablePieces_closed s.board r c s.currentPlayer hr he)
    · intro _
      exact handleMove_reject s r c
        (getFlippablePieces_closed s.board r c s.currentPlayer hr he)

/-- Witness for C2 at the initial state and the legal BLACK move (2,3). -/
theorem applyMove_succeeds_iff_flippable_witness :
    (0 ≤ (2 : Int) ∧ (2 : Int) < 8) ∧ (0 ≤ (3 : Int) ∧ (3 : Int) < 8) ∧
      ∃ l, getFlippablePieces initializeGame.board 2 3
          initializeGame.currentPlayer = Except.ok l ∧
        ((∃ s2 st, handleMove initializeGame 2 3 = Except.ok (s2, some st)) ↔ l ≠ []) ∧
        (l = [] → handleMove initializeGame 2 3 = Except.ok (initializeGame, none)) ∧
        (cellAt initializeGame.board 2 3 ≠ some Cell.empty →
          handleMove initializeGame 2 3 = Except.ok (initializeGame, none)) :=
  ⟨by decide, by decide,
    applyMove_succeeds_iff_flippable initializeGame 2 3 (by decide) (by decide)⟩

/-! ## Membership in `getValidMoves` -/

theorem getFlippablePieces_ne_throw (b : Board) (r c : Int) (p : Player)
    (hr : 0 ≤ r ∧ r < 8) :
    ∃ l, getFlippablePieces b r c p = Except.ok l := by
  unfold getFlippablePieces
  rw [if_pos hr]
  by_cases hcnd : cellAt b r c ≠ some Cell.empty ∨ r < 0 ∨ 8 ≤ r ∨ c < 0 ∨ 8 ≤ c
  · rw [if_pos hcnd]
    exact ⟨[], rfl⟩
  · rw [if_neg hcnd]
    exact ⟨_, rfl⟩

theorem mem_getValidMoves (b : Board) (p : Player) (q : Int × Int) :
    q ∈ getValidMoves b p ↔
      ∃ rn cn : Nat, rn < 8 ∧ cn < 8 ∧ q = ((rn : Int), (cn : Int)) ∧
        ∃ l, getFlippablePieces b (rn : Int) (cn : Int) p = Except.ok l ∧ l ≠ [] := by
  unfold getValidMoves
  simp only [List.mem_flatMap, List.mem_range]
  constructor
  · rintro ⟨rn, hrn, cn, hcn, hq⟩
    cases hflip : getFlippablePieces b (rn : Int) (cn : Int) p with
    | error e =>
      rw [hflip] at hq
      replace hq : q ∈ ([] : List (Int × Int)) := hq
      simp at hq
    | ok l =>
      rw [hflip] at hq
      replace hq : q ∈ (if l.length > 0 then [((rn : Int), (cn : Int))] else []) := hq
      by_cases hl : l.length > 0
      · rw [if_pos hl] at hq
        simp only [List.mem_singleton] at hq
        refine ⟨rn, cn, hrn, hcn, hq, l, hflip, ?_⟩
        intro hnil
        subst hnil
        simp at hl
      · rw [if_neg hl] at hq
        simp at hq
  · rintro ⟨rn, cn, hrn, hcn, hq, l, hflip, hl⟩
    refine ⟨rn, hrn, cn, hcn, ?_⟩
    show q ∈ (match getFlippablePieces b (rn : Int) (cn : Int) p with
      | .ok l => if l.length > 0 then [((rn : Int), (cn : Int))] else []
      | .error _ => [])
    rw [hflip]
    show q ∈ (if l.length > 0 then [((rn : Int), (cn : Int))] else [])
    rw [if_pos (by simpa using List.length_pos.mpr hl)]
    simp [hq]

/-! ## C7: the terminal state is absorbing -/

/-- **C7.** Whenever both players have no legal move, `checkGameStatus`
reports `TERMINAL` and leaves the current player unchanged; and from such a
state every `applyMove(r, c)` call, for every coordinate pair, fails —
either as an ordinary rejection leaving the state untouched, or (for an
out-of-range row) as the thrown `TypeError`, which also happens before any
board mutation.  The board accepts no further placements. -/
theorem terminal_state_absorbing (b : Board)
    (hB : getValidMoves b Player.black = [])
    (hW : getValidMoves b Player.white = []) :
    (∀ cp : Player, checkGameStatus b cp = (GameStatus.terminal, cp)) ∧
    (∀ (p : Player) (r c : Int),
      handleMove ⟨b, p⟩ r c = Except.ok (⟨b, p⟩, none) ∨
      handleMove ⟨b, p⟩ r c = Except.error ()) := by
  constructor
  · intro cp
    cases cp <;> simp [checkGameStatus, hB, hW, Player.opp]
  · intro p r c
    by_cases hr : 0 ≤ r ∧ r < 8
    · left
      obtain ⟨l, hflip⟩ := getFlippablePieces_ne_throw b r c p hr
      have hnil : l = [] := by
        by_contra hne
        by_cases he : cellAt b r c = some Cell.empty
        · have hb := cellAt_eq_some b r c Cell.empty he
          have hmem : ((r, c) : Int × Int) ∈ getValidMoves b p := by
            rw [mem_getValidMoves]
            refine ⟨r.toNat, c.toNat, by omega, by omega, ?_, l, ?_, hne⟩
            · simp [Int.toNat_of_nonneg hb.1, Int.toNat_of_nonneg hb.2.2.1]
            · rw [Int.toNat_of_nonneg hb.1, Int.toNat_of_nonneg hb.2.2.1]
              exact hflip
          cases p with
          | black => rw [hB] at hmem; simp at hmem
          | white => rw [hW] at hmem; simp at hmem
        · have := getFlippablePieces_closed b r c p hr he
          rw [hflip] at this
          simp at this
          exact hne this
      subst hnil
      exact handleMove_reject ⟨b, p⟩ r c hflip
    · right
      exact handleMove_throw ⟨b, p⟩ r c
        (getFlippablePieces_error b r c p (by omega))

/-- Witness for C7: on the all-empty board neither player has a legal move. -/
theorem terminal_state_absorbing_witness :
    getValidMoves emptyBoard Player.black = [] ∧
    getValidMoves emptyBoard Player.white = [] ∧
    ((∀ cp : Player, checkGameStatus emptyBoard cp = (GameStatus.terminal, cp)) ∧
      (∀ (p : Player) (r c : Int),
        handleMove ⟨emptyBoard, p⟩ r c = Except.ok (⟨emptyBoard, p⟩, none) ∨
        handleMove ⟨emptyBoard, p⟩ r c = Except.error ())) :=
  ⟨by decide, by decide,
    terminal_state_absorbing emptyBoard (by decide) (by decide)⟩

/-! ## C3: turn progression after a successful move -/

/-- **C3.** After every successful `applyMove` by player `P`, with
`O = opposite(P)`: if `validMoves(O)` is non-empty then the new current
player is `O` and the status is `IN_PROGRESS`; if `validMoves(O)` is empty
but `validMoves(P)` is non-empty then the status is `PASS` for `O` — `O` is
skipped without placing a disc — and the current player returns to `P`. -/
theorem successful_move_turn_progression (s : GameState) (r c : Int)
    (s2 : GameState) (st : GameStatus)
    (h : handleMove s r c = Except.ok (s2, some st)) :
    (getValidMoves s2.board s.currentPlayer.opp ≠ [] →
      s2.currentPlayer = s.currentPlayer.opp ∧ st = GameStatus.inProgress) ∧
    (getValidMoves s2.board s.currentPlayer.opp = [] →
      getValidMoves s2.board s.currentPlayer ≠ [] →
      st = GameStatus.pass s.currentPlayer.opp ∧
      s2.currentPlayer = s.currentPlayer) := by
  cases hflip : getFlippablePieces s.board r c s.currentPlayer with
  | error e =>
    cases e
    rw [handleMove_throw s r c hflip] at h
    exact absurd h (by simp)
  | ok l =>
    by_cases hl : l = []
    · rw [hl] at hflip
      rw [handleMove_reject s r c hflip] at h
      simp at h
    · rw [handleMove_success s r c l hflip hl] at h
      simp only [Except.ok.injEq, Prod.mk.injEq, Option.some.injEq] at h
      obtain ⟨hs2, hst⟩ := h
      subst hs2
      subst hst
      constructor
      · intro hne
        have hlen : (getValidMoves (boardAfter s r c l)
            s.currentPlayer.opp).length ≠ 0 := by
          intro h0
          exact hne (List.length_eq_zero.mp h0)
        simp [checkGameStatus, hlen]
      · intro hO hP
        have hO2 : getValidMoves (boardAfter s r c l) s.currentPlayer.opp = [] := hO
        have hP2 : getValidMoves (boardAfter s r c l) s.currentPlayer ≠ [] := hP
        simp [checkGameStatus, hO2, hP2, Player.opp_opp]

/-- Witness for C3, exercising the pass branch: from `passBefore` BLACK
plays (4,7) (flipping (4,6)); afterwards WHITE has no legal move while
BLACK still has one, so the status is `PASS` for WHITE and the turn returns
to BLACK. -/
theorem successful_move_turn_progression_witness :
    handleMove ⟨passBefore, Player.black⟩ 4 7 =
      Except.ok (⟨passAfter, Player.black⟩, some (GameStatus.pass Player.white)) ∧
    ((getValidMoves passAfter Player.black.opp ≠ [] →
        Player.black = Player.black.opp ∧
        GameStatus.pass Player.white = GameStatus.inProgress) ∧
      (getValidMoves passAfter Player.black.opp = [] →
        getValidMoves passAfter Player.black ≠ [] →
        GameStatus.pass Player.white = GameStatus.pass Player.black.opp ∧
        Player.black = Player.black)) := by
  have hflip : getFlippablePieces passBefore 4 7 Player.black =
      Except.ok [(4, 6)] := by decide
  have hB : boardAfter ⟨passBefore, Player.black⟩ 4 7 [(4, 6)] = passAfter := by
    funext i j
    revert j
    revert i
    decide
  have hcg : checkGameStatus passAfter Player.black.opp =
      (GameStatus.pass Player.white, Player.black) := by decide
  have h : handleMove ⟨passBefore, Player.black⟩ 4 7 =
      Except.ok (⟨passAfter, Player.black⟩, some (GameStatus.pass Player.white)) := by
    rw [handleMove_success ⟨passBefore, Player.black⟩ 4 7 [(4, 6)] hflip (by simp)]
    rw [hB, hcg]
  refine ⟨h, ?_⟩
  have := successful_move_turn_progression ⟨passBefore, Player.black⟩ 4 7
    ⟨passAfter, Player.black⟩ (GameStatus.pass Player.white) h
  exact this

/-! ## Properties of the flip list (C9) -/

theorem specRun_subset_takeWhile (b : Board) (p : Player) (r c dr dc : Int) :
    ∀ q ∈ specRun b p r c dr dc,
      q ∈ (rayFrom r c dr dc).takeWhile
        (fun x => decide (cellAt b x.1 x.2 = some p.opp.cell)) := by
  intro q hq
  unfold specRun at hq
  replace hq : q ∈ (match (rayFrom r c dr dc)[(List.takeWhile
      (fun x : Int × Int => decide (cellAt b x.1 x.2 = some p.opp.cell))
        (rayFrom r c dr dc)).length]? with
    | some q2 => if cellAt b q2.1 q2.2 = some p.cell then
        List.takeWhile (fun x : Int × Int => decide (cellAt b x.1 x.2 = some p.opp.cell))
          (rayFrom r c dr dc)
      else []
    | none => []) := hq
  split at hq
  · split at hq
    · exact hq
    · simp at hq
  · simp at hq

theorem mem_specRun (b : Board) (p : Player) (r c dr dc : Int) (q : Int × Int)
    (hq : q ∈ specRun b p r c dr dc) :
    ∃ k : Nat, k < 8 ∧ q = (r + ((k : Int) + 1) * dr, c + ((k : Int) + 1) * dc) ∧
      cellAt b q.1 q.2 = some p.opp.cell := by
  have htw := specRun_subset_takeWhile b p r c dr dc q hq
  have hpred : cellAt b q.1 q.2 = some p.opp.cell := by
    have h := List.mem_takeWhile_imp htw
    simpa using h
  have hray : q ∈ rayFrom r c dr dc :=
    (List.takeWhile_sublist _).mem htw
  unfold rayFrom at hray
  obtain ⟨k, hk, hkq⟩ := List.mem_map.mp hray
  exact ⟨k, List.mem_range.mp hk, hkq.symm, hpred⟩

theorem specRun_sublist_ray (b : Board) (p : Player) (r c dr dc : Int) :
    (specRun b p r c dr dc).Sublist (rayFrom r c dr dc) := by
  show (match (rayFrom r c dr dc)[(List.takeWhile
      (fun x : Int × Int => decide (cellAt b x.1 x.2 = some p.opp.cell))
        (rayFrom r c dr dc)).length]? with
    | some q2 => if cellAt b q2.1 q2.2 = some p.cell then
        List.takeWhile (fun x : Int × Int => decide (cellAt b x.1 x.2 = some p.opp.cell))
          (rayFrom r c dr dc)
      else []
    | none => []).Sublist (rayFrom r c dr dc)
  split
  · split
    · exact (List.takeWhile_sublist _)
    · exact List.nil_sublist _
  · exact List.nil_sublist _

theorem rayFrom_nodup (r c dr dc : Int) (hd : ¬(dr = 0 ∧ dc = 0)) :
    (rayFrom r c dr dc).Nodup := by
  unfold rayFrom
  refine List.Nodup.map_on ?_ (List.nodup_range 8)
  intro x hx y hy hxy
  simp only [Prod.mk.injEq] at hxy
  have h1 : ((x : Int) + 1) * dr = ((y : Int) + 1) * dr := by
    have := hxy.1
    omega
  have h2 : ((x : Int) + 1) * dc = ((y : Int) + 1) * dc := by
    have := hxy.2
    omega
  rcases not_and_or.mp hd with hdr | hdc
  · have := mul_right_cancel₀ hdr h1
    omega
  · have := mul_right_cancel₀ hdc h2
    omega

theorem specRun_nodup (b : Board) (p : Player) (r c dr dc : Int)
    (hd : ¬(dr = 0 ∧ dc = 0)) : (specRun b p r c dr dc).Nodup :=
  (specRun_sublist_ray b p r c dr dc).nodup (rayFrom_nodup r c dr dc hd)

theorem mem_specRun_ne_center (b : Board) (p : Player) (r c dr dc : Int)
    (q : Int × Int) (hd : ¬(dr = 0 ∧ dc = 0))
    (hq : q ∈ specRun b p r c dr dc) : q ≠ (r, c) := by
  obtain ⟨k, hk, hqe, _⟩ := mem_specRun b p r c dr dc q hq
  intro hcontra
  rw [hcontra] at hqe
  simp only [Prod.mk.injEq] at hqe
  have h1 : ((k : Int) + 1) * dr = 0 := by omega
  have h2 : ((k : Int) + 1) * dc = 0 := by omega
  have hk1 : ((k : Int) + 1) ≠ 0 := by omega
  rcases mul_eq_zero.mp h1 with h | h
  · exact hk1 h
  · rcases mul_eq_zero.mp h2 with h' | h'
    · exact hk1 h'
    · exact hd ⟨h, h'⟩

theorem specRun_mem_sign (b : Board) (p : Player) (r c dr dc : Int)
    (q : Int × Int) (hdr : dr = -1 ∨ dr = 0 ∨ dr = 1)
    (hdc : dc = -1 ∨ dc = 0 ∨ dc = 1)
    (hq : q ∈ specRun b p r c dr dc) :
    (q.1 - r).sign = dr ∧ (q.2 - c).sign = dc := by
  obtain ⟨k, hk, hqe, _⟩ := mem_specRun b p r c dr dc q hq
  have ha : (0 : Int) < (k : Int) + 1 := by omega
  subst hqe
  constructor
  · simp only [add_sub_cancel_left]
    rcases hdr with h | h | h <;> subst h
    · rw [mul_neg_one, Int.sign_neg, Int.sign_eq_one_iff_pos.mpr ha]
    · rw [mul_zero, Int.sign_zero]
    · rw [mul_one, Int.sign_eq_one_iff_pos.mpr ha]
  · simp only [add_sub_cancel_left]
    rcases hdc with h | h | h <;> subst h
    · rw [mul_neg_one, Int.sign_neg, Int.sign_eq_one_iff_pos.mpr ha]
    · rw [mul_zero, Int.sign_zero]
    · rw [mul_one, Int.sign_eq_one_iff_pos.mpr ha]

theorem specRun_disjoint (b : Board) (p : Player) (r c : Int)
    (d1 d2 : Int × Int) (h1 : d1 ∈ DIRECTIONS) (h2 : d2 ∈ DIRECTIONS)
    (hne : d1 ≠ d2) (q : Int × Int)
    (m1 : q ∈ specRun b p r c d1.1 d1.2)
    (m2 : q ∈ specRun b p r c d2.1 d2.2) : False := by
  have hu : ∀ d ∈ DIRECTIONS,
      (d.1 = -1 ∨ d.1 = 0 ∨ d.1 = 1) ∧ (d.2 = -1 ∨ d.2 = 0 ∨ d.2 = 1) := by
    decide
  have s1 := specRun_mem_sign b p r c d1.1 d1.2 q (hu d1 h1).1 (hu d1 h1).2 m1
  have s2 := specRun_mem_sign b p r c d2.1 d2.2 q (hu d2 h2).1 (hu d2 h2).2 m2
  apply hne
  have e1 : d1.1 = d2.1 := by rw [← s1.1, s2.1]
  have e2 : d1.2 = d2.2 := by rw [← s1.2, s2.2]
  exact Prod.ext e1 e2

theorem nodup_flatMap_of_disjoint {α β : Type} (l : List α) (f : α → List β)
    (hl : l.Nodup) (hf : ∀ a ∈ l, (f a).Nodup)
    (hd : ∀ a1 ∈ l, ∀ a2 ∈ l, a1 ≠ a2 → ∀ x, x ∈ f a1 → x ∈ f a2 → False) :
    (l.flatMap f).Nodup := by
  induction l with
  | nil => simp
  | cons a t ih =>
    rw [List.flatMap_cons, List.nodup_append]
    obtain ⟨hat, htn⟩ := List.nodup_cons.mp hl
    refine ⟨hf a (by simp), ?_, ?_⟩
    · exact ih htn (fun a2 ha2 => hf a2 (by simp [ha2]))
        (fun a1 ha1 a2 ha2 => hd a1 (by simp [ha1]) a2 (by simp [ha2]))
    · intro x hx hx2
      obtain ⟨a2, ha2, hxa2⟩ := List.mem_flatMap.mp hx2
      have hane : a ≠ a2 := fun h => hat (h ▸ ha2)
      exact hd a (by simp) a2 (by simp [ha2]) hane x hx hxa2

theorem flatMap_walkDir_eq_flatMap_specRun (b : Board) (p : Player) (r c : Int) :
    (DIRECTIONS.flatMap fun d => walkDir b p d.1 d.2 8 (r + d.1) (c + d.2) []) =
      DIRECTIONS.flatMap fun d => specRun b p r c d.1 d.2 := by
  have h : (fun d : Int × Int => walkDir b p d.1 d.2 8 (r + d.1) (c + d.2) []) =
      fun d : Int × Int => specRun b p r c d.1 d.2 :=
    funext fun d => walkDir_eq_specRun b p r c d.1 d.2
  rw [h]

theorem flips_nodup (b : Board) (p : Player) (r c : Int) :
    (DIRECTIONS.flatMap fun d => specRun b p r c d.1 d.2).Nodup := by
  apply nodup_flatMap_of_disjoint
  · decide
  · intro d hd
    have hz : ∀ d ∈ DIRECTIONS, ¬(d.1 = 0 ∧ d.2 = 0) := by decide
    exact specRun_nodup b p r c d.1 d.2 (hz d hd)
  · intro d1 h1 d2 h2 hne x
    exact specRun_disjoint b p r c d1 d2 h1 h2 hne x

/-- **C9.** For every board, player, and in-range `EMPTY` cell `(r, c)`,
every coordinate in the list returned by `flippablePieces(r, c, player)` is
in range, currently holds the opponent's colour — never `EMPTY`, never the
player's colour, and never equal to `(r, c)` itself — and the list contains
no duplicate coordinates. -/
theorem flippablePieces_entries_opponent (b : Board) (p : Player) (r c : Int)
    (_hr : 0 ≤ r ∧ r < 8) (_hc : 0 ≤ c ∧ c < 8)
    (he : cellAt b r c = some Cell.empty) :
    ∀ l, getFlippablePieces b r c p = Except.ok l →
      (∀ q ∈ l, (0 ≤ q.1 ∧ q.1 < 8 ∧ 0 ≤ q.2 ∧ q.2 < 8) ∧
        cellAt b q.1 q.2 = some p.opp.cell ∧
        cellAt b q.1 q.2 ≠ some Cell.empty ∧
        cellAt b q.1 q.2 ≠ some p.cell ∧ q ≠ (r, c)) ∧ l.Nodup := by
  intro l hflip
  rw [getFlippablePieces_open b r c p he] at hflip
  have hl : l = DIRECTIONS.flatMap fun d => specRun b p r c d.1 d.2 := by
    have h0 : (DIRECTIONS.flatMap fun d =>
        walkDir b p d.1 d.2 8 (r + d.1) (c + d.2) []) = l := Except.ok.inj hflip
    rw [← h0, flatMap_walkDir_eq_flatMap_specRun]
  subst hl
  constructor
  · intro q hq
    obtain ⟨d, hd, hqd⟩ := List.mem_flatMap.mp hq
    obtain ⟨k, hk, hqe, hopp⟩ := mem_specRun b p r c d.1 d.2 q hqd
    have hz : ∀ d ∈ DIRECTIONS, ¬(d.1 = 0 ∧ d.2 = 0) := by decide
    refine ⟨cellAt_eq_some b q.1 q.2 _ hopp, hopp, ?_, ?_,
      mem_specRun_ne_center b p r c d.1 d.2 q (hz d hd) hqd⟩
    · rw [hopp]
      simp [Player.cell_ne_empty p.opp]
    · rw [hopp]
      simp [Player.opp_cell_ne_cell p]
  · exact flips_nodup b p r c

/-- Witness for C9: initial board, BLACK at (2,3); the flip list is
[(3,3)], an in-range WHITE cell distinct from (2,3), with no duplicates. -/
theorem flippablePieces_entries_opponent_witness :
    (0 ≤ (2 : Int) ∧ (2 : Int) < 8) ∧ (0 ≤ (3 : Int) ∧ (3 : Int) < 8) ∧
      cellAt initializeGame.board 2 3 = some Cell.empty ∧
      ((∀ q ∈ [((3 : Int), (3 : Int))],
          (0 ≤ q.1 ∧ q.1 < 8 ∧ 0 ≤ q.2 ∧ q.2 < 8) ∧
          cellAt initializeGame.board q.1 q.2 = some Player.black.opp.cell ∧
          cellAt initializeGame.board q.1 q.2 ≠ some Cell.empty ∧
          cellAt initializeGame.board q.1 q.2 ≠ some Player.black.cell ∧
          q ≠ (2, 3)) ∧
        ([((3 : Int), (3 : Int))] : List (Int × Int)).Nodup) :=
  ⟨by decide, by decide, by decide,
    flippablePieces_entries_opponent initializeGame.board Player.black 2 3
      (by decide) (by decide) (by decide) [((3 : Int), (3 : Int))] (by decide)⟩

/-! ## C10: `getValidMoves` is an ordered duplicate-free query -/

/-- Row-major order on coordinates: ascending row, then ascending column. -/
def rowMajorLt (q1 q2 : Int × Int) : Prop :=
  q1.1 < q2.1 ∨ (q1.1 = q2.1 ∧ q1.2 < q2.2)

theorem pairwise_flatMap_helper {α β : Type} (l : List α) (f : α → List β)
    (R : α → α → Prop) (S : β → β → Prop)
    (hl : l.Pairwise R) (hf : ∀ a ∈ l, (f a).Pairwise S)
    (hcross : ∀ a1 a2, R a1 a2 → ∀ x ∈ f a1, ∀ y ∈ f a2, S x y) :
    (l.flatMap f).Pairwise S := by
  induction l with
  | nil => simp
  | cons a t ih =>
    rw [List.flatMap_cons, List.pairwise_append]
    rw [List.pairwise_cons] at hl
    refine ⟨hf a (by simp), ih hl.2 (fun a2 ha2 => hf a2 (by simp [ha2])), ?_⟩
    intro x hx y hy
    obtain ⟨a2, ha2, hya2⟩ := List.mem_flatMap.mp hy
    exact hcross a a2 (hl.1 a2 ha2) x hx y hya2

theorem mem_cell_entry (b : Board) (p : Player) (rn cn : Nat) (x : Int × Int)
    (hx : x ∈ (match getFlippablePieces b (rn : Int) (cn : Int) p with
      | .ok l => if l.length > 0 then [((rn : Int), (cn : Int))] else []
      | .error _ => ([] : List (Int × Int)))) : x = ((rn : Int), (cn : Int)) := by
  split at hx
  · split at hx
    · simpa using hx
    · simp at hx
  · simp at hx

theorem getValidMoves_pairwise (b : Board) (p : Player) :
    (getValidMoves b p).Pairwise rowMajorLt := by
  unfold getValidMoves
  apply pairwise_flatMap_helper _ _ (fun a b : Nat => a < b) _
    (List.pairwise_lt_range 8)
  · intro rn _
    apply pairwise_flatMap_helper _ _ (fun a b : Nat => a < b) _
      (List.pairwise_lt_range 8)
    · intro cn _
      split
      · split
        · exact List.pairwise_singleton _ _
        · exact List.Pairwise.nil
      · exact List.Pairwise.nil
    · intro c1 c2 hc x hx y hy
      have hx2 := mem_cell_entry b p rn c1 x hx
      have hy2 := mem_cell_entry b p rn c2 y hy
      subst hx2
      subst hy2
      refine Or.inr ⟨rfl, ?_⟩
      show ((c1 : Int)) < ((c2 : Int))
      exact_mod_cast hc
  · intro r1 r2 hr x hx y hy
    obtain ⟨c1, _, hxc⟩ := List.mem_flatMap.mp hx
    obtain ⟨c2, _, hyc⟩ := List.mem_flatMap.mp hy
    have hx2 := mem_cell_entry b p r1 c1 x hxc
    have hy2 := mem_cell_entry b p r2 c2 y hyc
    subst hx2
    subst hy2
    refine Or.inl ?_
    show ((r1 : Int)) < ((r2 : Int))
    exact_mod_cast hr

/-- **C10.** The query `validMoves(player)` is read-only — in the source it
(and `flippablePieces`) contains no assignment to `board` or
`currentPlayer`, which the embedding reflects by making both pure functions
of the board; here we prove the observable part of the claim: the returned
list holds exactly the qualifying coordinates (in-range cells whose flip
list is non-empty), in row-major order (ascending row, then ascending
column), with no duplicates. -/
theorem validMoves_row_major_qualifying (b : Board) (p : Player) :
    (getValidMoves b p).Pairwise rowMajorLt ∧
    (getValidMoves b p).Nodup ∧
    (∀ q : Int × Int, q ∈ getValidMoves b p ↔
      (0 ≤ q.1 ∧ q.1 < 8 ∧ 0 ≤ q.2 ∧ q.2 < 8 ∧
        ∃ l, getFlippablePieces b q.1 q.2 p = Except.ok l ∧ l ≠ [])) := by
  refine ⟨getValidMoves_pairwise b p, ?_, ?_⟩
  · have h := getValidMoves_pairwise b p
    exact h.imp (fun {q1 q2} hlt => by
      intro heq
      subst heq
      rcases hlt with h1 | ⟨_, h2⟩
      · exact absurd h1 (lt_irrefl _)
      · exact absurd h2 (lt_irrefl _))
  · intro q
    rw [mem_getValidMoves]
    constructor
    · rintro ⟨rn, cn, hrn, hcn, hq, l, hflip, hl⟩
      subst hq
      refine ⟨by omega, ?_, by omega, ?_, l, hflip, hl⟩
      · show ((rn : Int)) < 8
        exact_mod_cast hrn
      · show ((cn : Int)) < 8
        exact_mod_cast hcn
    · rintro ⟨h1, h2, h3, h4, l, hflip, hl⟩
      refine ⟨q.1.toNat, q.2.toNat, by omega, by omega, ?_, l, ?_, hl⟩
      · rw [Int.toNat_of_nonneg h1, Int.toNat_of_nonneg h3]
      · rw [Int.toNat_of_nonneg h1, Int.toNat_of_nonneg h3]
        exact hflip

/-! ## C5: disc conservation -/

theorem flips_mem_opp (b : Board) (p : Player) (r c : Int)
    (he : cellAt b r c = some Cell.empty) (l : List (Int × Int))
    (hflip : getFlippablePieces b r c p = Except.ok l) :
    ∀ q ∈ l, cellAt b q.1 q.2 = some p.opp.cell ∧ q ≠ (r, c) := by
  rw [getFlippablePieces_open b r c p he] at hflip
  have hl : l = DIRECTIONS.flatMap fun d => specRun b p r c d.1 d.2 := by
    have h0 : (DIRECTIONS.flatMap fun d =>
        walkDir b p d.1 d.2 8 (r + d.1) (c + d.2) []) = l := Except.ok.inj hflip
    rw [← h0, flatMap_walkDir_eq_flatMap_specRun]
  subst hl
  intro q hq
  obtain ⟨d, hd, hqd⟩ := List.mem_flatMap.mp hq
  obtain ⟨k, hk, hqe, hopp⟩ := mem_specRun b p r c d.1 d.2 q hqd
  have hz : ∀ d ∈ DIRECTIONS, ¬(d.1 = 0 ∧ d.2 = 0) := by decide
  exact ⟨hopp, mem_specRun_ne_center b p r c d.1 d.2 q (hz d hd) hqd⟩

theorem countP_congr_list {α : Type} (l : List α) (u v : α → Bool)
    (h : ∀ a ∈ l, u a = v a) : l.countP u = l.countP v := by
  induction l with
  | nil => simp
  | cons a t ih =>
    rw [List.countP_cons, List.countP_cons, h a (by simp),
      ih (fun a2 ha2 => h a2 (by simp [ha2]))]

theorem countP_flip_one {α : Type} (l : List α) (hl : l.Nodup)
    (u v : α → Bool) (x : α) (hx : x ∈ l)
    (hux : u x = true) (hvx : v x = false)
    (hrest : ∀ a ∈ l, a ≠ x → v a = u a) :
    l.countP v + 1 = l.countP u := by
  induction l with
  | nil => simp at hx
  | cons a t ih =>
    rw [List.countP_cons, List.countP_cons]
    rw [List.nodup_cons] at hl
    rcases List.mem_cons.mp hx with heq | hxt
    · subst heq
      rw [hux, hvx]
      have ht : t.countP v = t.countP u := by
        apply countP_congr_list
        intro a2 ha2
        exact hrest a2 (by simp [ha2]) (fun h2 => hl.1 (h2 ▸ ha2))
      simp [ht]
    · have hane : a ≠ x := fun h2 => hl.1 (h2 ▸ hxt)
      rw [hrest a (by simp) hane]
      have := ih hl.2 hxt (fun a2 ha2 h2 => hrest a2 (by simp [ha2]) h2)
      omega

theorem foldl_setCell_apply (v : Cell) (l : List (Int × Int)) :
    ∀ (bd : Board) (i j : Fin 8),
      (l.foldl (fun b2 q => setCell b2 q.1 q.2 v) bd) i j =
        if ((i.val : Int), (j.val : Int)) ∈ l then v else bd i j := by
  induction l with
  | nil => intro bd i j; simp
  | cons a t ih =>
    intro bd i j
    rw [List.foldl_cons, ih]
    by_cases hm : (((i.val : Int)), ((j.val : Int))) ∈ t
    · rw [if_pos hm, if_pos (by simp [hm])]
    · rw [if_neg hm]
      unfold setCell
      by_cases ha : ((i.val : Int)) = a.1 ∧ ((j.val : Int)) = a.2
      · rw [if_pos ha, if_pos]
        rw [List.mem_cons]
        left
        rw [Prod.ext_iff]
        exact ⟨ha.1, ha.2⟩
      · rw [if_neg ha, if_neg]
        intro hmem
        rcases List.mem_cons.mp hmem with h2 | h2
        · apply ha
          rw [Prod.ext_iff] at h2
          exact h2
        · exact hm h2

theorem allPositions_nodup : allPositions.Nodup := by decide

theorem mem_allPositions : ∀ q : Fin 8 × Fin 8, q ∈ allPositions := by decide

theorem boardCells_eq_map (b : Board) :
    boardCells b = allPositions.map (fun q => b q.1 q.2) := rfl

theorem countP_boardCells (b : Board) (pb : Cell → Bool) :
    (boardCells b).countP pb = allPositions.countP (fun q => pb (b q.1 q.2)) := by
  rw [boardCells_eq_map, List.countP_map]
  rfl

theorem count_partition (l : List Cell) :
    l.countP (fun x => decide (x = Cell.black)) +
      l.countP (fun x => decide (x = Cell.white)) +
      l.countP (fun x => decide (x = Cell.empty)) = l.length := by
  induction l with
  | nil => simp
  | cons a t ih =>
    rw [List.countP_cons, List.countP_cons, List.countP_cons, List.length_cons]
    cases a <;> simp <;> omega

theorem boardCells_length (b : Board) : (boardCells b).length = 64 := rfl

theorem counts_partition_board (b : Board) :
    blackCount b + whiteCount b + emptyCount b = 64 := by
  unfold blackCount whiteCount emptyCount
  rw [count_partition, boardCells_length]

/-- The pointwise description of the board after a successful move. -/
theorem boardAfter_apply (s : GameState) (r c : Int) (l : List (Int × Int))
    (i j : Fin 8) :
    boardAfter s r c l i j =
      if ((i.val : Int), (j.val : Int)) ∈ l ∨
          ((i.val : Int) = r ∧ (j.val : Int) = c)
      then s.currentPlayer.cell else s.board i j := by
  unfold boardAfter
  rw [foldl_setCell_apply]
  unfold setCell
  by_cases hm : (((i.val : Int)), ((j.val : Int))) ∈ l
  · rw [if_pos hm, if_pos (Or.inl hm)]
  · rw [if_neg hm]
    by_cases ha : ((i.val : Int)) = r ∧ ((j.val : Int)) = c
    · rw [if_pos ha, if_pos (Or.inr ha)]
    · rw [if_neg ha, if_neg (by
        intro h2
        rcases h2 with h2 | h2
        · exact hm h2
        · exact ha h2)]

theorem discs_after_success (s : GameState) (r c : Int) (l : List (Int × Int))
    (hflip : getFlippablePieces s.board r c s.currentPlayer = Except.ok l)
    (hl : l ≠ []) :
    blackCount (boardAfter s r c l) + whiteCount (boardAfter s r c l) =
      blackCount s.board + whiteCount s.board + 1 := by
  have he : cellAt s.board r c = some Cell.empty := by
    by_contra hne
    by_cases hr : 0 ≤ r ∧ r < 8
    · have h2 := getFlippablePieces_closed s.board r c s.currentPlayer hr hne
      rw [hflip] at h2
      exact hl (Except.ok.inj h2)
    · have h2 := getFlippablePieces_error s.board r c s.currentPlayer (by omega)
      rw [hflip] at h2
      exact absurd h2 (by simp)
  have hbounds := cellAt_eq_some s.board r c Cell.empty he
  have hmem := flips_mem_opp s.board s.currentPlayer r c he l hflip
  have hrn : ((r.toNat : Int)) = r := Int.toNat_of_nonneg hbounds.1
  have hcn : ((c.toNat : Int)) = c := Int.toNat_of_nonneg hbounds.2.2.1
  have hrlt : r.toNat < 8 := by omega
  have hclt : c.toNat < 8 := by omega
  have hcenter : s.board ⟨r.toNat, hrlt⟩ ⟨c.toNat, hclt⟩ = Cell.empty :=
    cellAt_val s.board r c Cell.empty he
  have hdrop : allPositions.countP
        (fun q => decide (boardAfter s r c l q.1 q.2 = Cell.empty)) + 1 =
      allPositions.countP (fun q => decide (s.board q.1 q.2 = Cell.empty)) := by
    refine countP_flip_one allPositions allPositions_nodup
      (fun q => decide (s.board q.1 q.2 = Cell.empty))
      (fun q => decide (boardAfter s r c l q.1 q.2 = Cell.empty))
      (⟨r.toNat, hrlt⟩, ⟨c.toNat, hclt⟩)
      (mem_allPositions (⟨r.toNat, hrlt⟩, ⟨c.toNat, hclt⟩)) ?_ ?_ ?_
    · exact decide_eq_true hcenter
    · show decide (boardAfter s r c l ⟨r.toNat, hrlt⟩ ⟨c.toNat, hclt⟩ =
        Cell.empty) = false
      have hx : boardAfter s r c l ⟨r.toNat, hrlt⟩ ⟨c.toNat, hclt⟩ =
          s.currentPlayer.cell := by
        rw [boardAfter_apply]
        rw [if_pos (Or.inr (by constructor <;> simp [hrn, hcn]))]
      rw [hx]
      exact decide_eq_false (Player.cell_ne_empty s.currentPlayer)
    · intro q hq hqne
      show decide (boardAfter s r c l q.1 q.2 = Cell.empty) =
        decide (s.board q.1 q.2 = Cell.empty)
      rw [boardAfter_apply]
      by_cases hql : (((q.1.val : Int)), ((q.2.val : Int))) ∈ l
      · rw [if_pos (Or.inl hql)]
        have hopp := (hmem _ hql).1
        rw [cellAt_fin s.board q.1 q.2] at hopp
        have hbq : s.board q.1 q.2 = s.currentPlayer.opp.cell :=
          Option.some.inj hopp
        rw [hbq]
        rw [decide_eq_false (Player.cell_ne_empty s.currentPlayer),
          decide_eq_false (Player.cell_ne_empty s.currentPlayer.opp)]
      · by_cases hqc : ((q.1.val : Int)) = r ∧ ((q.2.val : Int)) = c
        · exfalso
          apply hqne
          have h1 : q.1 = (⟨r.toNat, hrlt⟩ : Fin 8) := by
            apply Fin.ext
            show q.1.val = r.toNat
            omega
          have h2 : q.2 = (⟨c.toNat, hclt⟩ : Fin 8) := by
            apply Fin.ext
            show q.2.val = c.toNat
            omega
          rw [Prod.ext_iff]
          exact ⟨h1, h2⟩
        · rw [if_neg (by
            intro h2
            rcases h2 with h2 | h2
            · exact hql h2
            · exact hqc h2)]
  have hpartB := counts_partition_board (boardAfter s r c l)
  have hpartS := counts_partition_board s.board
  have heB : emptyCount (boardAfter s r c l) =
      allPositions.countP
        (fun q => decide (boardAfter s r c l q.1 q.2 = Cell.empty)) :=
    countP_boardCells _ _
  have heS : emptyCount s.board =
      allPositions.countP (fun q => decide (s.board q.1 q.2 = Cell.empty)) :=
    countP_boardCells _ _
  omega

/-- **C5.** Every successful `applyMove` strictly increases
`blackCount + whiteCount` by exactly 1 (the newly placed disc): every
flipped cell changes colour from opponent to mover without changing the
total.  A rejected move leaves the total unchanged (the `+ 0` case), so the
disc total is monotonically non-decreasing over any sequence of engine
moves (a thrown `TypeError` propagates before any mutation and also leaves
the board untouched). -/
theorem move_increments_disc_total (s : GameState) (r c : Int)
    (out : GameState × Option GameStatus)
    (h : handleMove s r c = Except.ok out) :
    blackCount out.1.board + whiteCount out.1.board =
      blackCount s.board + whiteCount s.board +
        (if out.2.isSome then 1 else 0) := by
  cases hflip : getFlippablePieces s.board r c s.currentPlayer with
  | error e =>
    cases e
    rw [handleMove_throw s r c hflip] at h
    exact absurd h (by simp)
  | ok l =>
    by_cases hl : l = []
    · rw [hl] at hflip
      rw [handleMove_reject s r c hflip] at h
      have hout : (s, (none : Option GameStatus)) = out := Except.ok.inj h
      rw [← hout]
      simp
    · rw [handleMove_success s r c l hflip hl] at h
      have hout := Except.ok.inj h
      rw [← hout]
      simp only [Option.isSome_some, if_pos]
      exact discs_after_success s r c l hflip hl

/-- Witness for C5: BLACK's opening move (2,3) raises the disc total from
4 to 5. -/
theorem move_increments_disc_total_witness :
    handleMove initializeGame 2 3 = Except.ok
      (⟨afterFirstMove, Player.white⟩, some GameStatus.inProgress) ∧
    blackCount afterFirstMove + whiteCount afterFirstMove =
      blackCount initializeGame.board + whiteCount initializeGame.board +
        (if (some GameStatus.inProgress).isSome then 1 else 0) := by
  have hflip : getFlippablePieces initializeGame.board 2 3 Player.black =
      Except.ok [(3, 3)] := by decide
  have hB : boardAfter initializeGame 2 3 [(3, 3)] = afterFirstMove := by
    funext i j
    revert j
    revert i
    decide
  have hcg : checkGameStatus afterFirstMove initializeGame.currentPlayer.opp =
      (GameStatus.inProgress, Player.white) := by decide
  have h : handleMove initializeGame 2 3 = Except.ok
      (⟨afterFirstMove, Player.white⟩, some GameStatus.inProgress) := by
    rw [handleMove_success initializeGame 2 3 [(3, 3)] hflip (by simp)]
    rw [hB, hcg]
  refine ⟨h, ?_⟩
  have h2 := move_increments_disc_total initializeGame 2 3
    (⟨afterFirstMove, Player.white⟩, some GameStatus.inProgress) h
  exact h2
